import Mathlib

/-!
Verification of the crawl-and-download pipeline of `src/Duke.py`
(a media web scraper) against its natural-language specification.

The shallow embedding models the module-level state of `Duke.py`
(`visited_urls`, `downloaded_media`, `download_queue`) as explicit state
passed through the functions, and the external collaborators (HTTP
fetching via `requests`, HTML parsing via BeautifulSoup, `urllib.parse`
URL resolution, `os.path` name manipulation, `random`) as oracle
parameters.  A fetched page is represented by the absolute URLs its
parsed HTML yields (the output of `urljoin` applied by the extractors),
since the parser and `urljoin` are external collaborators; a fetch
failure (timeout, non-2xx, parse error) is `Option.none`.
-/

/-- The four media categories of `MEDIA_EXTENSIONS` in `Duke.py`. -/
inductive MType where
  | images
  | videos
  | audio
  | documents
deriving DecidableEq, Repr

/-- A URL, reduced to the parts the crawl logic inspects:
`urlparse(u).netloc` (the `host`) and a distinguishing rest.
`urlparse` itself is an external collaborator. -/
structure Url where
  host : String
  rest : String
deriving DecidableEq, Repr

/-- What a successful fetch+parse of a page yields, already run through
the (external) extractors' `urljoin`: for each media type the list of
absolute media URLs `extract_media_links` produces for this page, and
the list of absolute outbound link URLs of its anchor tags before the
same-domain filter of `extract_links` (line 128) is applied. -/
structure Page where
  media : MType → List Url
  links : List Url

/-- A `DownloadQueueItem`: `(link, mtype, url)` as put on
`download_queue` at line 147 of `Duke.py`. -/
structure QItem where
  url : Url
  mtype : MType
  source : Url
deriving DecidableEq, Repr

/-- The module-level crawl state of `Duke.py`: `visited_urls` (a Python
set), the contents of `download_queue`, and additionally the log of
fetches issued (each `get_page_content` call at line 140, with the
depth at which it was issued) — the log is a history variable used to
state the no-duplicate-fetch and depth-bound properties. -/
structure CrawlState where
  visited : Finset Url
  queue : List QItem
  fetchLog : List (Url × Nat)

/-- The same-domain filter of `extract_links` (lines 122-131): a
candidate absolute link is kept unless same-domain mode is on and its
netloc differs from the netloc of the current page URL `base`. -/
def extract_links (same_domain : Bool) (base : Url) (pg : Page) : List Url :=
  pg.links.filter (fun l => !same_domain || l.host == base.host)

/-- The queue items one successfully fetched page contributes
(lines 144-147): for each requested media type, one item per extracted
media URL, with the current page as source. -/
def enqueueItems (media_types : List MType) (pg : Page) (url : Url) : List QItem :=
  media_types.flatMap (fun mt => (pg.media mt).map (fun l => ⟨l, mt, url⟩))

/-- The recursive traversal `crawl` of `Duke.py` (lines 134-153).
`fuel` is only a termination device: each recursive call increments
`current_depth` and the guard returns when `current_depth > max_depth`,
so fuel `max_depth + 2 - current_depth` never runs out (see
`crawl_run`).  Guards (line 135): already visited, depth exceeded, or
page ceiling reached → return.  Otherwise the fetch is issued (logged);
on failure (`w url = none`) the exception handler just returns — in
particular the URL is NOT added to `visited_urls`, which is only done
at line 142 after a successful fetch+parse.  On success the page's
media items are enqueued and the traversal recurses into each filtered
outbound link at depth+1. -/
def crawl (w : Url → Option Page) (media_types : List MType) (same_domain : Bool)
    (max_depth max_pages : Nat) : Nat → Url → Nat → CrawlState → CrawlState
  | 0, _, _, st => st
  | fuel + 1, url, depth, st =>
    if url ∈ st.visited ∨ depth > max_depth ∨ st.visited.card ≥ max_pages then
      st
    else
      let st1 : CrawlState := { st with fetchLog := st.fetchLog ++ [(url, depth)] }
      match w url with
      | none => st1
      | some pg =>
        let st2 : CrawlState :=
          { st1 with
            visited := insert url st1.visited
            queue := st1.queue ++ enqueueItems media_types pg url }
        (extract_links same_domain url pg).foldl
          (fun s l => crawl w media_types same_domain max_depth max_pages fuel l (depth + 1) s)
          st2

/-- The single top-level call `crawl(url, ...)` of `main` (line 193),
starting from the empty module-level state at depth 0. -/
def crawl_run (w : Url → Option Page) (media_types : List MType) (same_domain : Bool)
    (max_depth max_pages : Nat) (seed : Url) : CrawlState :=
  crawl w media_types same_domain max_depth max_pages (max_depth + 2) seed 0
    ⟨∅, [], []⟩

/-! ## The download worker pool (`download_worker`, lines 50-96) -/

/-- What the streaming `requests.get` of line 61 yields on success:
the declared `Content-Length` header (absent → `none`), and the number
of body bytes actually streamed by `iter_content`.  A raised exception
(timeout, non-2xx via `raise_for_status`, connection error) is
modelled as the fetch oracle returning `Option.none`. -/
structure MediaResp where
  contentLength : Option Nat
  bodyBytes : Nat
deriving Repr

/-- A media queue item as popped by a worker; URLs are plain strings
here because the worker treats them opaquely (lines 54, 61, 68). -/
structure WItem where
  url : String
  mtype : MType
  source : String
deriving DecidableEq, Repr

/-- A `DownloadRecord` as appended to `downloaded_media`
(lines 82-88). `size_kb` is `int(size_kb)` where
`size_kb = int(Content-Length or 0) / 1024` is a Python float. -/
structure DownloadRecord where
  url : String
  type : MType
  size_kb : Int
  filename : String
  source_page : String
deriving DecidableEq, Repr

/-- A file written by a worker: the media-type subfolder it goes into
and the filename inside it (lines 73-79). -/
structure FileWrite where
  folder : MType
  filename : String
deriving DecidableEq, Repr

/-- Filename derivation (lines 68-71): `path_base` stands for
`os.path.basename(urlparse(url).path)` and `url_ext` for
`os.path.splitext(url)[1]`, both computed by external collaborators and
provided by an oracle; `rand` stands for `random.randint(1000,9999)`.
If the basename is empty or has no dot (`'.' not in filename`, modelled
as character membership in the string's character list), a name is
synthesized from the random number and the URL extension, falling back
to `.bin`. -/
def derive_filename (path_base url_ext : String) (rand : Nat) : String :=
  if path_base = "" ∨ '.' ∉ path_base.data then
    let ext := if url_ext = "" then ".bin" else url_ext
    "file_" ++ toString rand ++ ext
  else
    path_base

/-- The oracles one worker consults: the streaming media fetch, the
URL-name parsing of `os.path`/`urlparse`, and the random generator. -/
structure WorkerEnv where
  fetch : String → Option MediaResp
  pathBase : String → String
  urlExt : String → String
  rand : String → Nat

/-- Line 89: `media_count[mtype] = media_count.get(mtype, 0) + 1`. -/
def bumpCount (media_count : MType → Nat) (t : MType) : MType → Nat :=
  fun s => if s = t then media_count t + 1 else media_count s

/-- The quota guard of line 56:
`max_media_per_type.get(mtype, 0) and media_count.get(mtype, 0) >= max_media_per_type[mtype]`
— a configured limit of 0 is falsy in Python, meaning unlimited. -/
def quotaReached (max_media_per_type : MType → Nat) (media_count : MType → Nat)
    (mtype : MType) : Bool :=
  max_media_per_type mtype != 0 && media_count mtype ≥ max_media_per_type mtype

/-- One worker's loop body over the items it pops (lines 52-96),
with its own LOCAL `media_count` dictionary (line 51 — note this is a
per-thread variable, not shared between workers).  Returns the
`DownloadRecord`s this worker appends to `downloaded_media` and the
files it writes, in order.  The size check of lines 64-66 compares
`int(Content-Length or 0) / 1024` against `min_size_kb`; the Python
float quotient is modelled by the exact rational
`mkRat (Content-Length or 0) 1024` (for a non-negative byte count this
quotient is exactly representable as a rational, and `mkRat n 1024` is
definitionally that quotient — see `Rat.mkRat_eq_div`).  Only if the
check passes is the file written and the record appended, with
`size_kb` truncated (`int(size_kb)`, i.e. the floor of a non-negative
value) to an integer. -/
def download_worker (env : WorkerEnv) (min_size_kb : Nat)
    (max_media_per_type : MType → Nat) :
    List WItem → (MType → Nat) → List DownloadRecord × List FileWrite
  | [], _ => ([], [])
  | item :: rest, media_count =>
    if quotaReached max_media_per_type media_count item.mtype then
      download_worker env min_size_kb max_media_per_type rest media_count
    else
      match env.fetch item.url with
      | none => download_worker env min_size_kb max_media_per_type rest media_count
      | some resp =>
        let size_kb : ℚ := mkRat (resp.contentLength.getD 0) 1024
        if size_kb < (min_size_kb : ℚ) then
          download_worker env min_size_kb max_media_per_type rest media_count
        else
          let filename :=
            derive_filename (env.pathBase item.url) (env.urlExt item.url) (env.rand item.url)
          let record : DownloadRecord :=
            { url := item.url, type := item.mtype, size_kb := ⌊size_kb⌋
              filename := filename, source_page := item.source }
          let tail := download_worker env min_size_kb max_media_per_type rest
            (bumpCount media_count item.mtype)
          (record :: tail.1, FileWrite.mk item.mtype filename :: tail.2)

/-- A run of the whole pool: the scheduler hands each worker the
subsequence of queue items it pops (each item is consumed by exactly
one worker — `Queue.get` is atomic); every worker starts with an empty
local `media_count` (line 51).  The resulting `downloaded_media`
ledger is some interleaving of the per-worker append sequences; since
the claims below only count records, the pool result is the
concatenation of the per-worker results (a merge preserves each
worker's subsequence, so counts agree with any true interleaving). -/
def run_pool (env : WorkerEnv) (min_size_kb : Nat) (max_media_per_type : MType → Nat)
    (assignment : List (List WItem)) : List DownloadRecord × List FileWrite :=
  assignment.foldr
    (fun items acc =>
      let out := download_worker env min_size_kb max_media_per_type items (fun _ => 0)
      (out.1 ++ acc.1, out.2 ++ acc.2))
    ([], [])

/-- Count of ledger records of one media type. -/
def countType (t : MType) (ledger : List DownloadRecord) : Nat :=
  (ledger.filter (fun r => r.type = t)).length

/-! ## The documents extractor (`extract_media_links`, lines 114-118,
and `is_media_file`, lines 46-47) -/

/-- Value of `MEDIA_EXTENSIONS['documents']` (line 18). -/
def documentExtensions : List String := [".pdf", ".epub", ".docx", ".txt"]

/-- Function `is_media_file(url, extensions)` (lines 46-47):
`any(url.lower().endswith(ext) for ext in extensions)` — a check on the
WHOLE url string passed in, lowercased.  `lower` and `endswith` are
modelled code-point-wise over the strings' character lists
(`Char.toLower` map, suffix test), which agrees with Python for the
ASCII extension strings involved. -/
def is_media_file (url : String) (extensions : List String) : Bool :=
  extensions.any (fun ext => ext.data.isSuffixOf (url.data.map Char.toLower))

/-- The `documents` branch of `extract_media_links` (lines 114-118):
for each anchor `href`, if `is_media_file(href, ...)` holds on the RAW
href, add `urljoin(base_url, href)` to the result set.  `urljoin` is an
external collaborator, passed as an oracle. -/
def extract_document_links (urljoin : String → String → String) (base_url : String)
    (hrefs : List String) : Finset String :=
  hrefs.foldl
    (fun links href =>
      if is_media_file href documentExtensions then insert (urljoin base_url href) links
      else links)
    ∅

/-- Modelled from the spec (for the refinement comparison of C7 only):
"scan all hyperlink tags; keep only links whose resolved target path
ends with a known document extension" — the extension check on the PATH
of the RESOLVED target, `path_of` standing for `urlparse(·).path`. -/
def extract_document_links_spec (urljoin : String → String → String)
    (path_of : String → String) (base_url : String) (hrefs : List String) : Finset String :=
  ((hrefs.filter
      (fun href => is_media_file (path_of (urljoin base_url href)) documentExtensions)).map
    (urljoin base_url)).toFinset

/-! ## Manifest writer (`save_results`, lines 156-171) and `main`
(lines 174-206) -/

/-- Line 25 of `Duke.py`. -/
def MAX_THREADS : Nat := 8

/-- A file on disk under `save_dir`, as seen by the `os.walk` of
line 166: its containing directory (relative) and its bare name. -/
structure DiskFile where
  dir : String
  name : String
deriving DecidableEq, Repr

/-- What `save_results` (lines 156-171) produces: `results.json` is the
ledger serialized as an array, `results.csv` is the header row followed
by one row per record (DictWriter with the fieldnames of line 160), and
`media.zip` archives every file of the output tree whose bare name is
not `media.zip` (line 168). -/
structure Manifest where
  jsonRecords : List DownloadRecord
  csvHeader : List String
  csvRows : List (List String)
  zipCreated : Bool
  zipEntries : List DiskFile
deriving Repr

/-- Name of a media type as it appears in records and folders. -/
def MType.dirName : MType → String
  | .images => "images"
  | .videos => "videos"
  | .audio => "audio"
  | .documents => "documents"

/-- One CSV row of `results.csv` (fieldnames of line 160, in order). -/
def csvRow (r : DownloadRecord) : List String :=
  [r.url, r.type.dirName, toString r.size_kb, r.filename, r.source_page]

/-- Function `save_results(save_dir)` (lines 156-171), with the filesystem tree
under `save_dir` passed explicitly. -/
def save_results (ledger : List DownloadRecord) (tree : List DiskFile) : Manifest :=
  { jsonRecords := ledger
    csvHeader := ["url", "type", "size_kb", "filename", "source_page"]
    csvRows := ledger.map csvRow
    zipCreated := true
    zipEntries := tree.filter (fun f => f.name ≠ "media.zip") }

/-- The result of one whole run of `main` (lines 174-206) after the
interactive configuration: the final crawl state, the worker count of
line 196 (`min(MAX_THREADS, download_queue.qsize())`, sized AFTER the
traversal has fully populated the queue and never changed again), the
ledger produced by the pool, and the manifest. -/
structure MainResult where
  crawlFinal : CrawlState
  numWorkers : Nat
  ledger : List DownloadRecord
  files : List FileWrite
  manifest : Manifest

/-- Function `main` (lines 193-204): run the traversal to completion, size the
pool from the queue length at that single point, run the workers under
a scheduler that splits the queue items among exactly `numWorkers`
workers (`split` gives each worker the subsequence it pops; when the
queue is empty the split is the empty list and no worker runs), join,
then write the manifest over the final ledger and disk tree.  The disk
tree passed to `save_results` is the manifest files' surroundings plus
one file per worker write. -/
def main_run (w : Url → Option Page) (media_types : List MType) (same_domain : Bool)
    (max_depth max_pages : Nat) (seed : Url) (env : WorkerEnv) (min_size_kb : Nat)
    (max_media_per_type : MType → Nat)
    (toW : QItem → WItem) (split : List WItem → Nat → List (List WItem))
    (extraTree : List DiskFile) : MainResult :=
  let cs := crawl_run w media_types same_domain max_depth max_pages seed
  let queueItems := cs.queue.map toW
  let n := min MAX_THREADS queueItems.length
  let pool := run_pool env min_size_kb max_media_per_type (split queueItems n)
  let tree := extraTree ++ pool.2.map (fun fw => DiskFile.mk fw.folder.dirName fw.filename)
  { crawlFinal := cs
    numWorkers := n
    ledger := pool.1
    files := pool.2
    manifest := save_results pool.1 tree }

/-- The queue contents at the moment the pool is sized in `main`
(line 196): the items the completed traversal put on `download_queue`,
as the workers will see them. -/
def main_queue (w : Url → Option Page) (media_types : List MType) (same_domain : Bool)
    (max_depth max_pages : Nat) (seed : Url) (toW : QItem → WItem) : List WItem :=
  (crawl_run w media_types same_domain max_depth max_pages seed).queue.map toW

/-- A scheduler split is valid when it produces exactly one popped-item
list per started worker and every queue item is consumed by exactly one
worker, in queue order within each worker. -/
def ValidSplit (split : List WItem → Nat → List (List WItem))
    (queueItems : List WItem) (n : Nat) : Prop :=
  (split queueItems n).length = n ∧ (split queueItems n).flatten.Perm queueItems

/-! ## Proof infrastructure for the traversal -/

/-- A link path of length `n` from `seed` to a URL in the site's link
graph: each hop goes through a page that fetches+parses successfully,
following one of its (unfiltered) outbound links. -/
inductive ReachN (w : Url → Option Page) (seed : Url) : Url → Nat → Prop
  | refl : ReachN w seed seed 0
  | step {u : Url} {n : Nat} {pg : Page} {v : Url} :
      ReachN w seed u n → w u = some pg → v ∈ pg.links → ReachN w seed v (n + 1)

theorem foldl_inv {α σ : Type _} (f : σ → α → σ) (Inv : σ → Prop) :
    ∀ ls : List α, (∀ l ∈ ls, ∀ s, Inv s → Inv (f s l)) →
      ∀ s, Inv s → Inv (ls.foldl f s) := by
  intro ls
  induction ls with
  | nil => intro _ s hs; simpa using hs
  | cons a as ih =>
    intro H s hs
    simp only [List.foldl_cons]
    exact ih (fun l hl => H l (List.mem_cons_of_mem _ hl)) _ (H a (List.mem_cons_self _ _) s hs)

/-- Master induction principle for `crawl`: an invariant `Inv` on the
state, together with a precondition `P` on the `(url, depth)` call
arguments that is set up by successful pages for their children, is
preserved by the whole traversal. -/
theorem crawl_inv (w : Url → Option Page) (mts : List MType) (sd : Bool)
    (maxD maxP : Nat) (Inv : CrawlState → Prop) (P : Url → Nat → Prop)
    (Hfail : ∀ url depth st, w url = none → P url depth → depth ≤ maxD →
      st.visited.card < maxP → url ∉ st.visited → Inv st →
      Inv ⟨st.visited, st.queue, st.fetchLog ++ [(url, depth)]⟩)
    (Hsucc : ∀ url depth st pg, w url = some pg → P url depth → depth ≤ maxD →
      st.visited.card < maxP → url ∉ st.visited → Inv st →
      Inv ⟨insert url st.visited, st.queue ++ enqueueItems mts pg url,
        st.fetchLog ++ [(url, depth)]⟩)
    (Hstep : ∀ url depth pg, w url = some pg → P url depth → depth ≤ maxD →
      ∀ l ∈ extract_links sd url pg, P l (depth + 1)) :
    ∀ fuel url depth st, P url depth → Inv st →
      Inv (crawl w mts sd maxD maxP fuel url depth st) := by
  intro fuel
  induction fuel with
  | zero => intro url depth st _ hInv; simpa [crawl] using hInv
  | succ f ih =>
    intro url depth st hP hInv
    rw [crawl]
    split
    · exact hInv
    · rename_i hguard
      push_neg at hguard
      obtain ⟨hvis, hdepth, hcard⟩ := hguard
      cases hw : w url with
      | none =>
        exact Hfail url depth st hw hP hdepth hcard hvis hInv
      | some pg =>
        refine foldl_inv _ Inv _ (fun l hl s hs => ih l (depth + 1) s ?_ hs) _ ?_
        · exact Hstep url depth pg hw hP hdepth l hl
        · exact Hsucc url depth st pg hw hP hdepth hcard hvis hInv

/-- Count of fetches issued for one URL in the fetch log. -/
def fetchCount (u : Url) (log : List (Url × Nat)) : Nat :=
  (log.filter (fun p => p.1 == u)).length

/-! ### Concrete example site used by witnesses and counterexamples.
`exS` links to `exA` and `exB`; fetching `exA` always fails; `exB`
links back to `exA`.  All on one host. -/

def exS : Url := ⟨"example.com", "/"⟩

def exA : Url := ⟨"example.com", "/a"⟩

def exB : Url := ⟨"example.com", "/b"⟩

def exWorld : Url → Option Page := fun u =>
  if u = exS then some ⟨fun _ => [], [exA, exB]⟩
  else if u = exB then some ⟨fun _ => [], [exA]⟩
  else none

/-- C3: throughout the traversal and at its end, the visited set has at
most `max_pages` elements: the guard of line 135 returns before any
work once `len(visited_urls) >= max_pages`, and each successful fetch
adds at most one URL, so from any intermediate state within the bound
(in particular the empty initial state of `crawl_run`) every later
state, including the final one, stays within the bound. -/
theorem crawl_page_count_bound (w : Url → Option Page) (mts : List MType) (sd : Bool)
    (maxD maxP : Nat) (seed : Url) :
    (∀ fuel url depth st, st.visited.card ≤ maxP →
        (crawl w mts sd maxD maxP fuel url depth st).visited.card ≤ maxP) ∧
    (crawl_run w mts sd maxD maxP seed).visited.card ≤ maxP := by
  have main : ∀ fuel url depth st, st.visited.card ≤ maxP →
      (crawl w mts sd maxD maxP fuel url depth st).visited.card ≤ maxP := by
    intro fuel url depth st h
    refine crawl_inv w mts sd maxD maxP (fun s => s.visited.card ≤ maxP)
      (fun _ _ => True) ?_ ?_ ?_ fuel url depth st trivial h
    · intro url depth st _ _ _ _ _ hInv
      exact hInv
    · intro url depth st pg _ _ _ hcard _ _
      show (insert url st.visited).card ≤ maxP
      have := Finset.card_insert_le url st.visited
      omega
    · intro _ _ _ _ _ _ _ _
      trivial
  exact ⟨main, main _ _ _ _ (by simp)⟩

theorem crawl_page_count_bound_witness :
    (crawl exWorld [] false 2 1 4 exS 0 ⟨∅, [], []⟩).visited.card ≤ 1 :=
  (crawl_page_count_bound exWorld [] false 2 1 exS).1 4 exS 0 ⟨∅, [], []⟩ (by decide)

/-- C4: with same-domain mode on, every URL the traversal ever fetches
(the seed included, hence in particular every non-seed page) has the
seed's host.  The filter of line 128 only compares each candidate
against the CURRENT page's netloc, but since the seed starts the chain
and every fetched page's links that survive the filter share that
page's host, all fetched hosts stay equal to the seed's host. -/
theorem crawl_fetch_same_domain (w : Url → Option Page) (mts : List MType)
    (maxD maxP : Nat) (seed : Url) (u : Url) (d : Nat)
    (h : (u, d) ∈ (crawl_run w mts true maxD maxP seed).fetchLog) :
    u.host = seed.host := by
  have Hfail : ∀ url depth (st : CrawlState), w url = none →
      url.host = seed.host → depth ≤ maxD → st.visited.card < maxP →
      url ∉ st.visited → (∀ p ∈ st.fetchLog, (Prod.fst p).host = seed.host) →
      ∀ p ∈ (CrawlState.mk st.visited st.queue (st.fetchLog ++ [(url, depth)])).fetchLog,
        (Prod.fst p).host = seed.host := by
    intro url depth st _ hP _ _ _ hInv p hp
    simp only [List.mem_append, List.mem_singleton] at hp
    rcases hp with hp | hp
    · exact hInv p hp
    · subst hp
      exact hP
  have Hsucc : ∀ url depth (st : CrawlState) pg, w url = some pg →
      url.host = seed.host → depth ≤ maxD → st.visited.card < maxP →
      url ∉ st.visited → (∀ p ∈ st.fetchLog, (Prod.fst p).host = seed.host) →
      ∀ p ∈ (CrawlState.mk (insert url st.visited) (st.queue ++ enqueueItems mts pg url)
          (st.fetchLog ++ [(url, depth)])).fetchLog,
        (Prod.fst p).host = seed.host := by
    intro url depth st pg _ hP _ _ _ hInv p hp
    simp only [List.mem_append, List.mem_singleton] at hp
    rcases hp with hp | hp
    · exact hInv p hp
    · subst hp
      exact hP
  have Hstep : ∀ url depth pg, w url = some pg → url.host = seed.host → depth ≤ maxD →
      ∀ l ∈ extract_links true url pg, l.host = seed.host := by
    intro url depth pg _ hP _ l hl
    simp only [extract_links, List.mem_filter, Bool.not_true, Bool.false_or,
      beq_iff_eq] at hl
    exact hl.2.trans hP
  have main := crawl_inv w mts true maxD maxP
    (fun s => ∀ p ∈ s.fetchLog, (Prod.fst p).host = seed.host)
    (fun url _ => url.host = seed.host) Hfail Hsucc Hstep
    (maxD + 2) seed 0 ⟨∅, [], []⟩ rfl (by intro p hp; simp at hp)
  exact main (u, d) h

theorem crawl_fetch_same_domain_witness :
    (exS, 0) ∈ (crawl_run exWorld [] true 2 10 exS).fetchLog ∧ exS.host = exS.host :=
  ⟨by decide, crawl_fetch_same_domain exWorld [] 2 10 exS exS 0 (by decide)⟩

/-- C6: every fetch the traversal issues happens at a depth at most
`max_depth` (the guard of line 135 returns before any work when
`current_depth > max_depth`), and the fetched URL is reachable from the
seed by a link path of exactly that length (the recursion at line 150
passes `current_depth + 1` to each child link of the page just
fetched).  Hence a page all of whose link paths from the seed are
longer than `max_depth` is never fetched. -/
theorem crawl_fetch_depth_bound (w : Url → Option Page) (mts : List MType) (sd : Bool)
    (maxD maxP : Nat) (seed : Url) (u : Url) (d : Nat)
    (h : (u, d) ∈ (crawl_run w mts sd maxD maxP seed).fetchLog) :
    d ≤ maxD ∧ ReachN w seed u d := by
  have Hfail : ∀ url depth (st : CrawlState), w url = none →
      ReachN w seed url depth → depth ≤ maxD → st.visited.card < maxP →
      url ∉ st.visited →
      (∀ p ∈ st.fetchLog, (Prod.snd p) ≤ maxD ∧ ReachN w seed (Prod.fst p) (Prod.snd p)) →
      ∀ p ∈ (CrawlState.mk st.visited st.queue (st.fetchLog ++ [(url, depth)])).fetchLog,
        (Prod.snd p) ≤ maxD ∧ ReachN w seed (Prod.fst p) (Prod.snd p) := by
    intro url depth st _ hP hd _ _ hInv p hp
    simp only [List.mem_append, List.mem_singleton] at hp
    rcases hp with hp | hp
    · exact hInv p hp
    · subst hp
      exact ⟨hd, hP⟩
  have Hsucc : ∀ url depth (st : CrawlState) pg, w url = some pg →
      ReachN w seed url depth → depth ≤ maxD → st.visited.card < maxP →
      url ∉ st.visited →
      (∀ p ∈ st.fetchLog, (Prod.snd p) ≤ maxD ∧ ReachN w seed (Prod.fst p) (Prod.snd p)) →
      ∀ p ∈ (CrawlState.mk (insert url st.visited) (st.queue ++ enqueueItems mts pg url)
          (st.fetchLog ++ [(url, depth)])).fetchLog,
        (Prod.snd p) ≤ maxD ∧ ReachN w seed (Prod.fst p) (Prod.snd p) := by
    intro url depth st pg _ hP hd _ _ hInv p hp
    simp only [List.mem_append, List.mem_singleton] at hp
    rcases hp with hp | hp
    · exact hInv p hp
    · subst hp
      exact ⟨hd, hP⟩
  have Hstep : ∀ url depth pg, w url = some pg → ReachN w seed url depth → depth ≤ maxD →
      ∀ l ∈ extract_links sd url pg, ReachN w seed l (depth + 1) := by
    intro url depth pg hw hP _ l hl
    have hmem : l ∈ pg.links := List.mem_of_mem_filter hl
    exact ReachN.step hP hw hmem
  have main := crawl_inv w mts sd maxD maxP
    (fun s => ∀ p ∈ s.fetchLog, (Prod.snd p) ≤ maxD ∧ ReachN w seed (Prod.fst p) (Prod.snd p))
    (fun url depth => ReachN w seed url depth) Hfail Hsucc Hstep
    (maxD + 2) seed 0 ⟨∅, [], []⟩ ReachN.refl (by intro p hp; simp at hp)
  exact main (u, d) h

theorem crawl_fetch_depth_bound_witness :
    (exA, 1) ∈ (crawl_run exWorld [] false 2 10 exS).fetchLog ∧
      1 ≤ 2 ∧ ReachN exWorld exS exA 1 :=
  ⟨by decide, crawl_fetch_depth_bound exWorld [] false 2 10 exS exA 1 (by decide)⟩

theorem fetchCount_append (u : Url) (l1 l2 : List (Url × Nat)) :
    fetchCount u (l1 ++ l2) = fetchCount u l1 + fetchCount u l2 := by
  simp [fetchCount, List.filter_append]

theorem fetchCount_singleton (u url : Url) (d : Nat) :
    fetchCount u [(url, d)] = if url = u then 1 else 0 := by
  by_cases h : url = u
  · simp [fetchCount, h]
  · simp [fetchCount, h]

/-- C2 (counterexample): the claim "a URL whose fetch failed is not
retried even if it is discovered again later" is false.  In `exWorld`
the seed links to `exA` (whose fetch fails — `get_page_content` raises,
so line 142 never marks it visited) and to `exB`, which links to `exA`
again; the second discovery passes the `url in visited_urls` guard and
a second fetch is issued for `exA`. -/
theorem crawl_refetch_counterexample :
    fetchCount exA (crawl_run exWorld [] false 2 10 exS).fetchLog = 2 ∧
      (exWorld exA).isNone = true :=
  ⟨by decide, rfl⟩

/-- C2 (amended): each page URL is in `visited_urls` at most once (it
is a set), and the traversal issues at most one fetch for any URL whose
fetch succeeds: a successful fetch immediately marks the URL visited
(line 142) and the guard of line 135 blocks every later visit.  Only a
URL whose fetch FAILS can be fetched again on rediscovery, because
failure skips the `visited_urls.add` — single-pass semantics holds for
successful pages only. -/
theorem crawl_no_refetch_of_success (w : Url → Option Page) (mts : List MType)
    (sd : Bool) (maxD maxP : Nat) (seed : Url) (u : Url) (pg : Page)
    (hu : w u = some pg) :
    fetchCount u (crawl_run w mts sd maxD maxP seed).fetchLog ≤ 1 := by
  have Hfail : ∀ url depth (st : CrawlState), w url = none → True → depth ≤ maxD →
      st.visited.card < maxP → url ∉ st.visited →
      fetchCount u st.fetchLog ≤ (if u ∈ st.visited then 1 else 0) →
      fetchCount u (CrawlState.mk st.visited st.queue
          (st.fetchLog ++ [(url, depth)])).fetchLog ≤
        (if u ∈ (CrawlState.mk st.visited st.queue
            (st.fetchLog ++ [(url, depth)])).visited then 1 else 0) := by
    intro url depth st hw _ _ _ _ hInv
    have hne : url ≠ u := by
      intro he
      rw [he, hu] at hw
      exact Option.noConfusion hw
    show fetchCount u (st.fetchLog ++ [(url, depth)]) ≤ (if u ∈ st.visited then 1 else 0)
    rw [fetchCount_append, fetchCount_singleton, if_neg hne]
    omega
  have Hsucc : ∀ url depth (st : CrawlState) pg2, w url = some pg2 → True →
      depth ≤ maxD → st.visited.card < maxP → url ∉ st.visited →
      fetchCount u st.fetchLog ≤ (if u ∈ st.visited then 1 else 0) →
      fetchCount u (CrawlState.mk (insert url st.visited)
          (st.queue ++ enqueueItems mts pg2 url) (st.fetchLog ++ [(url, depth)])).fetchLog ≤
        (if u ∈ (CrawlState.mk (insert url st.visited)
            (st.queue ++ enqueueItems mts pg2 url)
            (st.fetchLog ++ [(url, depth)])).visited then 1 else 0) := by
    intro url depth st pg2 _ _ _ _ hvis hInv
    show fetchCount u (st.fetchLog ++ [(url, depth)]) ≤
      (if u ∈ insert url st.visited then 1 else 0)
    rw [fetchCount_append, fetchCount_singleton]
    by_cases he : url = u
    · subst he
      rw [if_neg hvis] at hInv
      simp only [Finset.mem_insert, true_or, if_pos, if_pos rfl]
      omega
    · rw [if_neg he]
      have : (u ∈ insert url st.visited) ↔ u ∈ st.visited := by
        rw [Finset.mem_insert]
        constructor
        · intro h
          rcases h with h | h
          · exact absurd h.symm he
          · exact h
        · intro h
          exact Or.inr h
      rw [if_congr this rfl rfl]
      omega
  have main := crawl_inv w mts sd maxD maxP
    (fun s => fetchCount u s.fetchLog ≤ (if u ∈ s.visited then 1 else 0))
    (fun _ _ => True) Hfail Hsucc (by intro _ _ _ _ _ _ _ _; trivial)
    (maxD + 2) seed 0 ⟨∅, [], []⟩ trivial (by simp [fetchCount])
  refine le_trans main ?_
  split
  · exact le_refl 1
  · exact Nat.zero_le 1

theorem crawl_no_refetch_of_success_witness :
    fetchCount exS (crawl_run exWorld [] false 2 10 exS).fetchLog ≤ 1 :=
  crawl_no_refetch_of_success exWorld [] false 2 10 exS exS ⟨fun _ => [], [exA, exB]⟩ rfl

theorem countType_nil (t : MType) : countType t [] = 0 := rfl

theorem countType_cons (t : MType) (r : DownloadRecord) (l : List DownloadRecord) :
    countType t (r :: l) = (if r.type = t then 1 else 0) + countType t l := by
  by_cases h : r.type = t
  · simp [countType, h]
    omega
  · simp [countType, h]

theorem countType_append (t : MType) (l1 l2 : List DownloadRecord) :
    countType t (l1 ++ l2) = countType t l1 + countType t l2 := by
  simp [countType, List.filter_append]

/-- One worker never appends more records of type `t` than its local
`media_count` has room for below the configured positive limit. -/
theorem download_worker_quota (env : WorkerEnv) (minkb : Nat) (maxPT : MType → Nat)
    (t : MType) (hpos : maxPT t ≠ 0) :
    ∀ (items : List WItem) (count : MType → Nat),
      countType t (download_worker env minkb maxPT items count).1 ≤ maxPT t - count t := by
  intro items
  induction items with
  | nil => intro count; simp [download_worker, countType]
  | cons item rest ih =>
    intro count
    rw [download_worker]
    split
    · exact ih count
    · rename_i hq
      cases hf : env.fetch item.url with
      | none =>
        simp only [hf]
        exact ih count
      | some resp =>
        simp only [hf]
        split
        · exact ih count
        · rw [countType_cons]
          have h2 := ih (bumpCount count item.mtype)
          by_cases hmt : item.mtype = t
          · subst hmt
            have hroom : count item.mtype < maxPT item.mtype := by
              by_contra hge
              exact hq (by simp [quotaReached, hpos, Nat.le_of_not_lt hge])
            rw [if_pos rfl]
            have hb : bumpCount count item.mtype item.mtype = count item.mtype + 1 := by
              simp [bumpCount]
            rw [hb] at h2
            omega
          · rw [if_neg hmt]
            have hb : bumpCount count item.mtype t = count t := by
              simp only [bumpCount]
              rw [if_neg (fun he => hmt he.symm)]
            rw [hb] at h2
            omega

theorem countType_run_pool (env : WorkerEnv) (minkb : Nat) (maxPT : MType → Nat)
    (t : MType) :
    ∀ assignment : List (List WItem),
      countType t (run_pool env minkb maxPT assignment).1 =
        (assignment.map
          (fun items =>
            countType t (download_worker env minkb maxPT items (fun _ => 0)).1)).sum := by
  intro assignment
  induction assignment with
  | nil => simp [run_pool, countType]
  | cons a as ih =>
    have hsplit : (run_pool env minkb maxPT (a :: as)).1
        = (download_worker env minkb maxPT a (fun _ => 0)).1
          ++ (run_pool env minkb maxPT as).1 := rfl
    rw [hsplit, countType_append, ih, List.map_cons, List.sum_cons]

/-! ### Concrete worker environment for witnesses and counterexamples:
every media fetch succeeds with a declared Content-Length of 2 MiB. -/

def exEnv : WorkerEnv :=
  { fetch := fun _ => some ⟨some 2097152, 2097152⟩
    pathBase := fun _ => "a.jpg"
    urlExt := fun _ => ".jpg"
    rand := fun _ => 1234 }

def exMaxPT : MType → Nat := fun t => if t = MType.images then 1 else 0

def exItem1 : WItem := ⟨"http://example.com/a.jpg", MType.images, "http://example.com/"⟩

def exItem2 : WItem := ⟨"http://example.com/b.jpg", MType.images, "http://example.com/"⟩

/-- C1 (counterexample): the claim "the total number of DownloadRecords
of that type across ALL workers is at most the limit" is false, because
`media_count` (line 51) is a per-thread local variable: with
`max_media_per_type[images] = 1` and two workers each popping one image
item, both items pass each worker's own counter check and two image
records are appended. -/
theorem worker_quota_counterexample :
    exMaxPT MType.images = 1 ∧
      countType MType.images
        (run_pool exEnv 0 exMaxPT [[exItem1], [exItem2]]).1 = 2 :=
  ⟨rfl, by decide⟩

/-- C1 (amended): the per-type quota is enforced against each worker's
own local counter, so for a media type with a configured positive
limit, EACH WORKER appends at most `limit` records of that type — a
worker that finds its own counter at the limit drops the item without
downloading — and a pool of `n` workers appends at most `n * limit` in
total; the run-wide total therefore meets the stated limit only when at
most one worker handles that type. -/
theorem worker_quota_bound (env : WorkerEnv) (minkb : Nat) (maxPT : MType → Nat)
    (t : MType) (hpos : maxPT t ≠ 0) :
    (∀ items : List WItem,
      countType t (download_worker env minkb maxPT items (fun _ => 0)).1 ≤ maxPT t) ∧
    (∀ assignment : List (List WItem),
      countType t (run_pool env minkb maxPT assignment).1
        ≤ assignment.length * maxPT t) := by
  have hone : ∀ items : List WItem,
      countType t (download_worker env minkb maxPT items (fun _ => 0)).1 ≤ maxPT t := by
    intro items
    have h := download_worker_quota env minkb maxPT t hpos items (fun _ => 0)
    omega
  refine ⟨hone, ?_⟩
  intro assignment
  rw [countType_run_pool]
  have hbound := List.sum_le_card_nsmul
    (assignment.map
      (fun items => countType t (download_worker env minkb maxPT items (fun _ => 0)).1))
    (maxPT t) ?_
  · simpa [List.length_map, smul_eq_mul] using hbound
  · intro x hx
    obtain ⟨items, _, hx2⟩ := List.mem_map.1 hx
    exact hx2 ▸ hone items

theorem worker_quota_bound_witness :
    exMaxPT MType.images ≠ 0 ∧
      countType MType.images
        (download_worker exEnv 0 exMaxPT [exItem1, exItem2] (fun _ => 0)).1
        ≤ exMaxPT MType.images :=
  ⟨by decide, (worker_quota_bound exEnv 0 exMaxPT MType.images (by decide)).1
    [exItem1, exItem2]⟩

/-- C5: a queue item whose declared content length is below the
minimum is abandoned before anything is written — the `continue` of
line 66 fires before the file open of line 77 and the ledger append of
line 82, so processing the item leaves records and files exactly as
processing the rest of the queue alone would — and consequently every
`DownloadRecord` ever appended has `size_kb ≥ min_size_kb` (the
recorded `int(size_kb)` is the floor of a value that passed the check
against the integer `min_size_kb`). -/
theorem worker_min_size_filter (env : WorkerEnv) (minkb : Nat) (maxPT : MType → Nat) :
    (∀ (items : List WItem) (count : MType → Nat),
      ∀ r ∈ (download_worker env minkb maxPT items count).1, (minkb : ℤ) ≤ r.size_kb) ∧
    (∀ (item : WItem) (rest : List WItem) (count : MType → Nat) (resp : MediaResp),
      env.fetch item.url = some resp →
      mkRat (resp.contentLength.getD 0) 1024 < (minkb : ℚ) →
      quotaReached maxPT count item.mtype = false →
      download_worker env minkb maxPT (item :: rest) count
        = download_worker env minkb maxPT rest count) := by
  constructor
  · intro items
    induction items with
    | nil => intro count r hr; simp [download_worker] at hr
    | cons item rest ih =>
      intro count r hr
      rw [download_worker] at hr
      split at hr
      · exact ih count r hr
      · rename_i hq
        cases hf : env.fetch item.url with
        | none =>
          simp only [hf] at hr
          exact ih count r hr
        | some resp =>
          simp only [hf] at hr
          split at hr
          · exact ih count r hr
          · rename_i hsize
            simp only [List.mem_cons] at hr
            rcases hr with hr | hr
            · subst hr
              show (minkb : ℤ) ≤ ⌊mkRat (resp.contentLength.getD 0) 1024⌋
              rw [Int.le_floor]
              push_cast
              exact not_lt.1 hsize
            · exact ih (bumpCount count item.mtype) r hr
  · intro item rest count resp hf hsize hq
    rw [download_worker]
    rw [if_neg (by simp [hq])]
    simp only [hf]
    rw [if_pos hsize]

theorem worker_min_size_filter_witness :
    (DownloadRecord.mk "http://example.com/a.jpg" MType.images 2048 "a.jpg"
        "http://example.com/")
      ∈ (download_worker exEnv 1 exMaxPT [exItem1] (fun _ => 0)).1 ∧
    ((1 : Nat) : ℤ) ≤ (DownloadRecord.mk "http://example.com/a.jpg" MType.images 2048
        "a.jpg" "http://example.com/").size_kb :=
  ⟨by decide,
    (worker_min_size_filter exEnv 1 exMaxPT).1 [exItem1] (fun _ => 0) _ (by decide)⟩

/-- An environment whose media responses carry the same declared
`Content-Length` headers but arbitrary actually-streamed byte counts
`g`.  Used to state that the worker never consults the streamed byte
count. -/
def stripBody (env : WorkerEnv) (g : String → Nat) : WorkerEnv :=
  { env with
    fetch := fun u => (env.fetch u).map (fun r => ⟨r.contentLength, g u⟩) }

/-- C9: the size used for the minimum-size check and recorded in
`size_kb` is always derived from the declared `Content-Length` header
(taken as 0 when absent, line 64), truncated in the record (line 85) —
never from the bytes actually written: (i) every appended record's
`size_kb` is the floor of its response's `Content-Length / 1024`;
(ii) the whole worker run is unchanged when every response's streamed
byte count is replaced arbitrarily; (iii) with `min_size_kb > 0` an
item whose response lacks the header is skipped entirely; (iv) with
`min_size_kb = 0` such an item is downloaded and recorded with
`size_kb = 0`. -/
theorem worker_size_from_header (env : WorkerEnv) (minkb : Nat) (maxPT : MType → Nat) :
    (∀ (items : List WItem) (count : MType → Nat),
      ∀ r ∈ (download_worker env minkb maxPT items count).1,
        ∃ resp, env.fetch r.url = some resp ∧
          r.size_kb = ⌊mkRat (resp.contentLength.getD 0) 1024⌋) ∧
    (∀ (g : String → Nat) (items : List WItem) (count : MType → Nat),
      download_worker (stripBody env g) minkb maxPT items count
        = download_worker env minkb maxPT items count) ∧
    (∀ (item : WItem) (rest : List WItem) (count : MType → Nat) (resp : MediaResp),
      env.fetch item.url = some resp → resp.contentLength = none → 0 < minkb →
      quotaReached maxPT count item.mtype = false →
      download_worker env minkb maxPT (item :: rest) count
        = download_worker env minkb maxPT rest count) ∧
    (∀ (item : WItem) (rest : List WItem) (count : MType → Nat) (resp : MediaResp),
      env.fetch item.url = some resp → resp.contentLength = none →
      quotaReached maxPT count item.mtype = false →
      (download_worker env 0 maxPT (item :: rest) count).1
        = DownloadRecord.mk item.url item.mtype 0
            (derive_filename (env.pathBase item.url) (env.urlExt item.url)
              (env.rand item.url))
            item.source
          :: (download_worker env 0 maxPT rest (bumpCount count item.mtype)).1) := by
  refine ⟨?_, ?_, ?_, ?_⟩
  · intro items
    induction items with
    | nil => intro count r hr; simp [download_worker] at hr
    | cons item rest ih =>
      intro count r hr
      rw [download_worker] at hr
      split at hr
      · exact ih count r hr
      · cases hf : env.fetch item.url with
        | none =>
          simp only [hf] at hr
          exact ih count r hr
        | some resp =>
          simp only [hf] at hr
          split at hr
          · exact ih count r hr
          · simp only [List.mem_cons] at hr
            rcases hr with hr | hr
            · subst hr
              exact ⟨resp, hf, rfl⟩
            · exact ih (bumpCount count item.mtype) r hr
  · intro g items
    induction items with
    | nil => intro count; rfl
    | cons item rest ih =>
      intro count
      rw [download_worker, download_worker]
      have hfeq : (stripBody env g).fetch item.url
          = (env.fetch item.url).map (fun r => ⟨r.contentLength, g item.url⟩) := rfl
      split
      · exact ih count
      · cases hf : env.fetch item.url with
        | none =>
          rw [hfeq, hf]
          simp only [Option.map_none]
          exact ih count
        | some resp =>
          rw [hfeq, hf]
          simp only [Option.map_some]
          show (if mkRat ((⟨resp.contentLength, g item.url⟩ : MediaResp).contentLength.getD 0) 1024
                  < (minkb : ℚ) then
              download_worker (stripBody env g) minkb maxPT rest count
            else _) = _
          split
          · exact ih count
          · rw [ih (bumpCount count item.mtype)]
            rfl
  · intro item rest count resp hf hnone hpos hq
    have hsz : mkRat ((resp.contentLength.getD 0 : Nat) : Int) 1024 < (minkb : ℚ) := by
      rw [hnone]
      show mkRat ((0 : Nat) : Int) 1024 < (minkb : ℚ)
      rw [Rat.mkRat_eq_div]
      push_cast
      rw [zero_div]
      exact_mod_cast hpos
    rw [download_worker]
    rw [if_neg (by simp [hq])]
    simp only [hf]
    rw [if_pos hsz]
  · intro item rest count resp hf hnone hq
    have hsz : ¬ mkRat ((resp.contentLength.getD 0 : Nat) : Int) 1024 < ((0 : Nat) : ℚ) := by
      rw [hnone]
      show ¬ mkRat ((0 : Nat) : Int) 1024 < ((0 : Nat) : ℚ)
      simp [Rat.mkRat_eq_div]
    rw [download_worker]
    rw [if_neg (by simp [hq])]
    simp only [hf]
    rw [if_neg hsz]
    show DownloadRecord.mk item.url item.mtype
        ⌊mkRat ((resp.contentLength.getD 0 : Nat) : Int) 1024⌋ _ item.source :: _ = _
    rw [hnone]
    congr 2

def exEnvNoCL : WorkerEnv :=
  { fetch := fun _ => some ⟨none, 500⟩
    pathBase := fun _ => "a.jpg"
    urlExt := fun _ => ".jpg"
    rand := fun _ => 1234 }

theorem worker_size_from_header_witness :
    download_worker exEnvNoCL 1 exMaxPT [exItem1] (fun _ => 0)
      = download_worker exEnvNoCL 1 exMaxPT [] (fun _ => 0) :=
  (worker_size_from_header exEnvNoCL 1 exMaxPT).2.2.1 exItem1 [] (fun _ => 0)
    ⟨none, 500⟩ rfl rfl (by decide) (by decide)

/-! ## C7: the documents extractor -/

theorem extract_document_links_foldl (urljoin : String → String → String)
    (base : String) :
    ∀ (hrefs : List String) (acc : Finset String),
      hrefs.foldl
        (fun links href =>
          if is_media_file href documentExtensions then insert (urljoin base href) links
          else links)
        acc
      = acc ∪ ((hrefs.filter
          (fun h => is_media_file h documentExtensions)).map (urljoin base)).toFinset := by
  intro hrefs
  induction hrefs with
  | nil => intro acc; simp
  | cons h t ih =>
    intro acc
    rw [List.foldl_cons]
    by_cases hp : is_media_file h documentExtensions
    · rw [if_pos hp]
      rw [ih (insert (urljoin base h) acc)]
      rw [List.filter_cons_of_pos (by simpa using hp), List.map_cons]
      ext x
      simp only [Finset.mem_union, Finset.mem_insert, List.toFinset_cons, List.mem_toFinset]
      tauto
    · rw [if_neg hp]
      rw [ih acc]
      rw [List.filter_cons_of_neg (by simpa using hp)]

/-- C7 (counterexample): the extractor does NOT keep exactly the links
whose resolved target path ends with a document extension.  The anchor
`doc.pdf?download=1` resolves (as `urllib.parse.urljoin` would) to
`http://example.com/doc.pdf?download=1`, whose path `/doc.pdf` ends in
`.pdf` — the spec set contains it — but `is_media_file` is applied at
line 117 to the RAW href string, which ends in `1`, so the code returns
the empty set. -/
theorem extract_document_links_counterexample :
    extract_document_links (fun b h => b ++ h) "http://example.com/"
        ["doc.pdf?download=1"] = ∅ ∧
    extract_document_links_spec (fun b h => b ++ h)
        (fun s => if s = "http://example.com/doc.pdf?download=1" then "/doc.pdf" else s)
        "http://example.com/" ["doc.pdf?download=1"]
      = {"http://example.com/doc.pdf?download=1"} :=
  ⟨by decide, by decide⟩

/-- C7 (amended): for every page and base URL, the documents extractor
returns exactly the set of resolved (`urljoin`-ed) targets of those
anchor hrefs whose RAW href string, lowercased, ends with one of the
known document extensions `.pdf`, `.epub`, `.docx`, `.txt` — the
extension test is applied to the unresolved href (including any query
or fragment suffix), not to the resolved target's path — with
duplicates within one page collapsed (the result is a set). -/
theorem extract_document_links_exact (urljoin : String → String → String)
    (base : String) (hrefs : List String) (x : String) :
    x ∈ extract_document_links urljoin base hrefs
      ↔ ∃ h ∈ hrefs, is_media_file h documentExtensions ∧ x = urljoin base h := by
  rw [extract_document_links, extract_document_links_foldl]
  simp only [Finset.mem_union, Finset.not_mem_empty, false_or, List.mem_toFinset,
    List.mem_map, List.mem_filter]
  constructor
  · rintro ⟨h, ⟨hmem, hp⟩, hx⟩
    exact ⟨h, hmem, by simpa using hp, hx.symm⟩
  · rintro ⟨h, hmem, hp, hx⟩
    exact ⟨h, ⟨hmem, by simpa using hp⟩, hx.symm⟩

/-- Concrete queue-item view used by witnesses. -/
def exToW : QItem → WItem := fun q => ⟨q.url.rest, q.mtype, q.source.rest⟩

/-- C8: the number of workers started by `main` is
`min(MAX_THREADS, download_queue.qsize())` taken at the single moment
after the traversal has fully populated the queue (line 196), and —
since any valid scheduler split hands items to exactly the workers
started then — the number of worker loops that ever run equals that
same count: no workers are added afterwards. -/
theorem main_pool_size (w : Url → Option Page) (mts : List MType) (sd : Bool)
    (maxD maxP : Nat) (seed : Url) (env : WorkerEnv) (minkb : Nat)
    (maxPT : MType → Nat) (toW : QItem → WItem)
    (split : List WItem → Nat → List (List WItem)) (extraTree : List DiskFile)
    (hsplit : ValidSplit split (main_queue w mts sd maxD maxP seed toW)
      (min MAX_THREADS (main_queue w mts sd maxD maxP seed toW).length)) :
    (main_run w mts sd maxD maxP seed env minkb maxPT toW split extraTree).numWorkers
        = min MAX_THREADS (main_queue w mts sd maxD maxP seed toW).length ∧
    (split (main_queue w mts sd maxD maxP seed toW)
        (min MAX_THREADS (main_queue w mts sd maxD maxP seed toW).length)).length
      = (main_run w mts sd maxD maxP seed env minkb maxPT toW split extraTree).numWorkers :=
  ⟨rfl, hsplit.1⟩

theorem main_pool_size_witness :
    (main_run exWorld [] false 2 10 exS exEnv 0 exMaxPT exToW (fun _ _ => [])
        []).numWorkers
      = min MAX_THREADS (main_queue exWorld [] false 2 10 exS exToW).length :=
  (main_pool_size exWorld [] false 2 10 exS exEnv 0 exMaxPT exToW (fun _ _ => []) []
    ⟨by decide, by decide⟩).1

/-- C10: when the traversal enqueues no media items, `main` starts zero
workers (`min(MAX_THREADS, 0) = 0`), the ledger stays empty, and
`save_results` still runs: `results.json` is the empty array,
`results.csv` is just the header row
`url,type,size_kb,filename,source_page`, and `media.zip` is still
created, archiving the output tree minus every file named `media.zip`
(line 168). -/
theorem main_empty_queue_manifest (w : Url → Option Page) (mts : List MType) (sd : Bool)
    (maxD maxP : Nat) (seed : Url) (env : WorkerEnv) (minkb : Nat)
    (maxPT : MType → Nat) (toW : QItem → WItem)
    (split : List WItem → Nat → List (List WItem)) (extraTree : List DiskFile)
    (hq : (crawl_run w mts sd maxD maxP seed).queue = [])
    (hsplit : split [] 0 = []) :
    (main_run w mts sd maxD maxP seed env minkb maxPT toW split extraTree).numWorkers = 0 ∧
    (main_run w mts sd maxD maxP seed env minkb maxPT toW split extraTree).ledger = [] ∧
    (main_run w mts sd maxD maxP seed env minkb maxPT toW split
        extraTree).manifest.jsonRecords = [] ∧
    (main_run w mts sd maxD maxP seed env minkb maxPT toW split
        extraTree).manifest.csvHeader
      = ["url", "type", "size_kb", "filename", "source_page"] ∧
    (main_run w mts sd maxD maxP seed env minkb maxPT toW split
        extraTree).manifest.csvRows = [] ∧
    (main_run w mts sd maxD maxP seed env minkb maxPT toW split
        extraTree).manifest.zipCreated = true ∧
    (main_run w mts sd maxD maxP seed env minkb maxPT toW split
        extraTree).manifest.zipEntries
      = extraTree.filter (fun f => f.name ≠ "media.zip") := by
  simp [main_run, hq, hsplit, run_pool, save_results]

theorem main_empty_queue_manifest_witness :
    (main_run exWorld [] false 2 10 exS exEnv 0 exMaxPT exToW (fun _ _ => [])
        [⟨"", "results.json"⟩, ⟨"", "media.zip"⟩]).manifest.zipEntries
      = [⟨"", "results.json"⟩] := by
  have h := (main_empty_queue_manifest exWorld [] false 2 10 exS exEnv 0 exMaxPT exToW
    (fun _ _ => []) [⟨"", "results.json"⟩, ⟨"", "media.zip"⟩] (by decide) rfl).2.2.2.2.2.2
  rw [h]
  decide
